import Mathlib

/-!
Verification development for the CPA (Conditional Parameter Aggregation) modeler
of the SDV repository (`sdv/modeler.py`).

The development is a shallow embedding of `modeler.py` into Lean:

* Python values that occur in nested parameter structures and in table cells are
  modelled by the mutual inductive `PVal` / `PList` / `PEntries` (scalars, lists,
  numpy arrays, dicts).  Floating point numbers are modelled by `ℚ`; the float
  `NaN` (pandas' missing value) is modelled by the dedicated constructor
  `PVal.na`.
* pandas DataFrames are modelled by `Frame`: a row index (list of labels), an
  optional index name, and ordered named columns.  A column stores its pandas
  dtype (`numeric` for int/float dtypes, `object` otherwise), since
  `Modeler._impute` branches on the dtype.
* Python dicts are modelled by ordered association lists, with
  `dictSetP`/`dictUpdateP` reproducing insertion-order semantics of
  `d[k] = v` / `d.update(u)`.
* The external collaborators (the `Metadata` service and the distribution
  fitting primitive `copulas.multivariate.GaussianMultivariate`, both explicitly
  out of scope in the repository) are parameters: a `Metadata` structure of
  functions, a `fit : Frame → ExternalModel` function and a `logf : ℚ → ℚ`
  function standing for `numpy.log`.  An `ExternalModel` exposes exactly the
  fields `modeler.py` touches: the `covariance` matrix, the `distribs` mapping
  (each entry carrying an optional `std`), and `to_dict`, modelled as a function
  of the two mutable fields since the code mutates them before serialising.
* Python exceptions are modelled by `Except PyError`; the unbounded recursion of
  `Modeler.cpa` is modelled with an explicit fuel parameter, exhaustion standing
  for Python's `RecursionError`.
* `Modeler._impute` assigns each filled column back into the frame that was
  passed in (`data[column] = data[column].fillna(...)`) and returns that same
  object.  `imputeRun` therefore returns both the post-call state of the
  caller's object (first component, including the partially mutated state when
  an exception escapes mid-loop) and the returned value (second component).
-/

set_option maxHeartbeats 2000000
set_option maxRecDepth 10000

namespace SDV

/-! ## Python values -/

mutual
/-- A Python value as it occurs in nested parameter structures and table cells:
`na` is float NaN (pandas' missing value), `num` an int/float, `str` a string,
`dict` a Python dict, `arr` a Python list, `ndarr` a `numpy.ndarray`. -/
inductive PVal where
  | na : PVal
  | num : ℚ → PVal
  | str : String → PVal
  | dict : PEntries → PVal
  | arr : PList → PVal
  | ndarr : PList → PVal
  deriving Repr

/-- A sequence of Python values (contents of a list or a numpy array). -/
inductive PList where
  | nil : PList
  | cons : PVal → PList → PList
  deriving Repr

/-- The ordered entries of a Python dict (`str(key)` applied to keys). -/
inductive PEntries where
  | nil : PEntries
  | cons : String → PVal → PEntries → PEntries
  deriving Repr
end

mutual
/-- Boolean structural equality on `PVal`. -/
def PVal.beq : PVal → PVal → Bool
  | .na, .na => true
  | .num a, .num b => a == b
  | .str a, .str b => a == b
  | .dict a, .dict b => PEntries.beq a b
  | .arr a, .arr b => PList.beq a b
  | .ndarr a, .ndarr b => PList.beq a b
  | _, _ => false

/-- Boolean structural equality on `PList`. -/
def PList.beq : PList → PList → Bool
  | .nil, .nil => true
  | .cons a as, .cons b bs => PVal.beq a b && PList.beq as bs
  | _, _ => false

/-- Boolean structural equality on `PEntries`. -/
def PEntries.beq : PEntries → PEntries → Bool
  | .nil, .nil => true
  | .cons k a as, .cons l b bs => k == l && PVal.beq a b && PEntries.beq as bs
  | _, _ => false
end

mutual
theorem PVal.beq_iff_val : ∀ a b : PVal, PVal.beq a b = true ↔ a = b
  | .na, .na => by simp [PVal.beq]
  | .num a, .num b => by simp [PVal.beq]
  | .str a, .str b => by simp [PVal.beq]
  | .dict a, .dict b => by simp [PVal.beq, PEntries.beq_iff_entries a b]
  | .arr a, .arr b => by simp [PVal.beq, PList.beq_iff_list a b]
  | .ndarr a, .ndarr b => by simp [PVal.beq, PList.beq_iff_list a b]
  | .na, .num _ => by simp [PVal.beq]
  | .na, .str _ => by simp [PVal.beq]
  | .na, .dict _ => by simp [PVal.beq]
  | .na, .arr _ => by simp [PVal.beq]
  | .na, .ndarr _ => by simp [PVal.beq]
  | .num _, .na => by simp [PVal.beq]
  | .num _, .str _ => by simp [PVal.beq]
  | .num _, .dict _ => by simp [PVal.beq]
  | .num _, .arr _ => by simp [PVal.beq]
  | .num _, .ndarr _ => by simp [PVal.beq]
  | .str _, .na => by simp [PVal.beq]
  | .str _, .num _ => by simp [PVal.beq]
  | .str _, .dict _ => by simp [PVal.beq]
  | .str _, .arr _ => by simp [PVal.beq]
  | .str _, .ndarr _ => by simp [PVal.beq]
  | .dict _, .na => by simp [PVal.beq]
  | .dict _, .num _ => by simp [PVal.beq]
  | .dict _, .str _ => by simp [PVal.beq]
  | .dict _, .arr _ => by simp [PVal.beq]
  | .dict _, .ndarr _ => by simp [PVal.beq]
  | .arr _, .na => by simp [PVal.beq]
  | .arr _, .num _ => by simp [PVal.beq]
  | .arr _, .str _ => by simp [PVal.beq]
  | .arr _, .dict _ => by simp [PVal.beq]
  | .arr _, .ndarr _ => by simp [PVal.beq]
  | .ndarr _, .na => by simp [PVal.beq]
  | .ndarr _, .num _ => by simp [PVal.beq]
  | .ndarr _, .str _ => by simp [PVal.beq]
  | .ndarr _, .dict _ => by simp [PVal.beq]
  | .ndarr _, .arr _ => by simp [PVal.beq]

theorem PList.beq_iff_list : ∀ a b : PList, PList.beq a b = true ↔ a = b
  | .nil, .nil => by simp [PList.beq]
  | .cons a as, .cons b bs => by
      simp [PList.beq, PVal.beq_iff_val a b, PList.beq_iff_list as bs]
  | .nil, .cons _ _ => by simp [PList.beq]
  | .cons _ _, .nil => by simp [PList.beq]

theorem PEntries.beq_iff_entries : ∀ a b : PEntries, PEntries.beq a b = true ↔ a = b
  | .nil, .nil => by simp [PEntries.beq]
  | .cons k a as, .cons l b bs => by
      simp [PEntries.beq, PVal.beq_iff_val a b, PEntries.beq_iff_entries as bs, and_assoc]
  | .nil, .cons _ _ _ => by simp [PEntries.beq]
  | .cons _ _ _, .nil => by simp [PEntries.beq]
end

instance : DecidableEq PVal := fun a b =>
  decidable_of_iff (PVal.beq a b = true) (PVal.beq_iff_val a b)

instance : DecidableEq PList := fun a b =>
  decidable_of_iff (PList.beq a b = true) (PList.beq_iff_list a b)

instance : DecidableEq PEntries := fun a b =>
  decidable_of_iff (PEntries.beq a b = true) (PEntries.beq_iff_entries a b)

instance : Inhabited PVal := ⟨.na⟩

/-- Build a `PList` from a Lean list (notation helper for concrete inputs). -/
def PList.ofList : List PVal → PList
  | [] => .nil
  | x :: xs => .cons x (PList.ofList xs)

/-- Build `PEntries` from a Lean list (notation helper for concrete inputs). -/
def PEntries.ofList : List (String × PVal) → PEntries
  | [] => .nil
  | (k, v) :: xs => .cons k v (PEntries.ofList xs)

/-! ## Python dict semantics

Flattened parameter maps are Python dicts, modelled as ordered association
lists whose keys are unique.  `dictSetP` is `d[key] = v` (overwrite in place,
else append) and `dictUpdateP` is `d.update(u)`. -/

/-- First value bound to `key`, like `d[key]` / `d.get(key)`. -/
def pLookup : List (String × PVal) → String → Option PVal
  | [], _ => none
  | (k, v) :: rest, key => if k = key then some v else pLookup rest key

/-- Python `d[key] = v`: overwrite the existing binding in place, otherwise
append the new binding at the end (insertion order). -/
def dictSetP (m : List (String × PVal)) (key : String) (v : PVal) :
    List (String × PVal) :=
  if m.any (fun p => p.1 = key) then m.map (fun p => if p.1 = key then (key, v) else p)
  else m ++ [(key, v)]

/-- Python `d.update(u)`: apply `dictSetP` for every binding of `u` in order. -/
def dictUpdateP (m u : List (String × PVal)) : List (String × PVal) :=
  u.foldl (fun acc p => dictSetP acc p.1 p.2) m

/-! ## Parameter flattening (`Modeler._flatten_array`, `Modeler._flatten_dict`)

The Python methods build a fresh `result` dict and walk the structure; the
accumulator argument below is that `result` dict.  The top-level calls pass
`[]` for it and `''` for the prefix, exactly like the source defaults. -/

/-- The module-level constant `IGNORED_DICT_KEYS = ['fitted', 'distribution', 'type']`. -/
def IGNORED_DICT_KEYS : List String := ["fitted", "distribution", "type"]

/-- The Python check `isinstance(value, (dict, list))` (numpy arrays are
neither dicts nor lists, so they answer `false`). -/
def isDictOrList : PVal → Bool
  | .dict _ => true
  | .arr _ => true
  | _ => false

/-- The check `isinstance(value, (np.ndarray, list))` used for array recursion. -/
def isArrayLike : PVal → Bool
  | .arr _ => true
  | .ndarr _ => true
  | _ => false

/-- Key concatenation `'__'.join([prefix, k]) if len(prefix) else k`. -/
def joinKey (pre k : String) : String := if pre.length ≠ 0 then pre ++ "__" ++ k else k

/-- `Modeler._flatten_array`: flatten a list/array by positional index;
elements that are lists or numpy arrays are recursed into, all other elements
(including dicts) are stored as values. -/
def flatten_array : PList → String → Nat → List (String × PVal) → List (String × PVal)
  | .nil, _, _, result => result
  | .cons x rest, pre, i, result =>
    let prefix_key := joinKey pre (toString i)
    let result := match x with
      | .arr xs => dictUpdateP result (flatten_array xs prefix_key 0 [])
      | .ndarr xs => dictUpdateP result (flatten_array xs prefix_key 0 [])
      | v => dictSetP result prefix_key v
    flatten_array rest pre (i + 1) result

/-- `Modeler._flatten_dict`: flatten a dict, joining key paths with `__`.
An entry whose key is in `IGNORED_DICT_KEYS` is skipped when its value is
*neither a dict nor a list* (`not isinstance(value, (dict, list))`); dict
values recurse into `flatten_dict`, list/ndarray values into `flatten_array`,
and any other value is stored under its compound key. -/
def flatten_dict : PEntries → String → List (String × PVal) → List (String × PVal)
  | .nil, _, result => result
  | .cons key value rest, pre, result =>
    let prefix_key := joinKey pre key
    let result :=
      if key ∈ IGNORED_DICT_KEYS ∧ isDictOrList value = false then result
      else match value with
        | .dict entries => dictUpdateP result (flatten_dict entries prefix_key [])
        | .ndarr xs => dictUpdateP result (flatten_array xs prefix_key 0 [])
        | .arr xs => dictUpdateP result (flatten_array xs prefix_key 0 [])
        | v => dictSetP result prefix_key v
    flatten_dict rest pre result

/-! ## Covariance encoding and scale log-transform (`Modeler._get_model_dict`) -/

/-- `np.tril`: zero all entries strictly above the diagonal. -/
def tril (m : List (List ℚ)) : List (List ℚ) :=
  m.enum.map (fun p => p.2.enum.map (fun q => if q.1 ≤ p.1 then q.2 else 0))

/-- The covariance re-representation of `_get_model_dict`: take `np.tril` of the
matrix and keep only the first `i + 1` entries of row `i`
(`values.append(row[:index + 1])`). -/
def encodeCovariance (m : List (List ℚ)) : List (List ℚ) :=
  (tril m).enum.map (fun p => p.2.take (p.1 + 1))

/-- Entry `(i, j)` of a list-of-lists matrix, `0` out of range. -/
def entryAt (m : List (List ℚ)) (i j : Nat) : ℚ := (m.getD i []).getD j 0

/-- Rebuild a full symmetric square matrix from the ragged lower-triangular
rows kept by `encodeCovariance` (the spec's in-principle inverse). -/
def reconstructCovariance (vals : List (List ℚ)) : List (List ℚ) :=
  (List.range vals.length).map (fun i =>
    (List.range vals.length).map (fun j =>
      if j ≤ i then entryAt vals i j else entryAt vals j i))

/-- A per-column univariate distribution descriptor of the fitted model:
the optional `std` scale parameter that `_get_model_dict` rewrites
(`None` when undefined), plus its remaining fields, untouched by the code. -/
structure Distrib where
  std : Option ℚ
  rest : PVal
  deriving Repr, DecidableEq

/-- The scale rewriting loop of `_get_model_dict`: for every distribution,
`if distribution.std is not None: distribution.std = np.log(distribution.std)`.
`logf` stands for the external `np.log`. -/
def encodeStds (logf : ℚ → ℚ) (ds : List (String × Distrib)) : List (String × Distrib) :=
  ds.map (fun p => (p.1, { p.2 with std := p.2.std.map logf }))

/-! ## Frames (pandas DataFrames) -/

/-- The pandas dtype of a column as far as `_impute` is concerned:
`numeric` answers `dtype in (np.int, np.float)` with `True`. -/
inductive Dtype where
  | numeric : Dtype
  | object : Dtype
  deriving Repr, DecidableEq

/-- A named DataFrame column: its pandas dtype and its cells. -/
structure Col where
  name : String
  dtype : Dtype
  cells : List PVal
  deriving Repr, DecidableEq

/-- A pandas DataFrame: optional index name, index labels, ordered columns. -/
structure Frame where
  indexName : Option String
  index : List PVal
  cols : List Col
  deriving Repr, DecidableEq

instance : Inhabited Frame := ⟨⟨none, [], []⟩⟩

/-- Number of rows of a frame. -/
def Frame.numRows (f : Frame) : Nat := f.index.length

/-- The column names of a frame, in order. -/
def Frame.colNames (f : Frame) : List String := f.cols.map Col.name

/-- `True` iff a cell is pandas-missing (NaN). -/
def cellIsNA : PVal → Bool
  | .na => true
  | _ => false

/-- A cell that fits a numeric (int/float) dtype. -/
def isNumCell : PVal → Bool
  | .na => true
  | .num _ => true
  | _ => false

/-- pandas dtype inference for a freshly built column: float64 when every cell
is a number or NaN (an all-NaN column is float64), object otherwise. -/
def inferDtype (cells : List PVal) : Dtype :=
  if cells.all isNumCell then .numeric else .object

/-- Build a column with inferred dtype. -/
def mkCol (name : String) (cells : List PVal) : Col :=
  ⟨name, inferDtype cells, cells⟩

/-- The cells of column `name` (`f[name]` as a value list). -/
def getColCells (f : Frame) (name : String) : List PVal :=
  match f.cols.find? (fun c => c.name = name) with
  | some c => c.cells
  | none => []

/-- Cell of column `name` at row position `i`. -/
def frameGetCell (f : Frame) (name : String) (i : Nat) : PVal :=
  (getColCells f name).getD i .na

/-- Whether the cell of column `name` at row position `i` is missing. -/
def frameIsNA (f : Frame) (name : String) (i : Nat) : Bool :=
  cellIsNA (frameGetCell f name i)

/-- `Series.unique()`: distinct values in order of first appearance. -/
def uniqueCellsAux : List PVal → List PVal → List PVal
  | [], _ => []
  | x :: rest, seen =>
    if x ∈ seen then uniqueCellsAux rest seen else x :: uniqueCellsAux rest (x :: seen)

/-- `Series.unique()` over a cell list. -/
def uniqueCells (l : List PVal) : List PVal := uniqueCellsAux l []

/-- `DataFrame.set_index(key)`: the column becomes the index (and its name the
index name) and is removed from the columns. -/
def setIndex (f : Frame) (key : String) : Frame :=
  { indexName := some key,
    index := getColCells f key,
    cols := f.cols.filter (fun c => c.name ≠ key) }

/-- `df.loc[[v]]`: the sub-frame of all rows whose index label equals `v`
(a fresh copy, as in pandas). -/
def locRows (f : Frame) (v : PVal) : Frame :=
  let keep := (List.range f.numRows).filter (fun i => f.index.getD i .na = v)
  { indexName := f.indexName,
    index := keep.map (fun i => f.index.getD i .na),
    cols := f.cols.map (fun c => { c with cells := keep.map (fun i => c.cells.getD i .na) }) }

/-- `left.merge(right, how='left', left_index=True, right_index=True)`:
keep every left row in order; a left row joins each right row with an equal
index label (duplicating if several match) and gets NaN in the right columns
when none matches.  Column names are assumed disjoint (no suffixing). -/
def mergeLeft (l r : Frame) : Frame :=
  let pairs := (List.range l.numRows).flatMap (fun i =>
    let ms := (List.range r.numRows).filter
      (fun j => r.index.getD j .na = l.index.getD i .na)
    if ms.isEmpty then [(i, (none : Option Nat))] else ms.map (fun j => (i, some j)))
  { indexName := l.indexName,
    index := pairs.map (fun p => l.index.getD p.1 .na),
    cols :=
      l.cols.map (fun c => { c with cells := pairs.map (fun p => c.cells.getD p.1 .na) })
        ++ r.cols.map (fun c =>
          { c with cells := pairs.map (fun p =>
              match p.2 with
              | some j => c.cells.getD j .na
              | none => .na) }) }

/-- `df[name].fillna(v, inplace=True)`: replace the NaNs of column `name`. -/
def fillnaCol (f : Frame) (name : String) (v : PVal) : Frame :=
  { f with cols := f.cols.map (fun c =>
      if c.name = name then
        { c with cells := c.cells.map (fun x => if x = .na then v else x) }
      else c) }

/-- `df.index = series`: positionally replace the index labels; the index name
becomes the series' name. -/
def setIndexFromSeries (f : Frame) (cells : List PVal) (name : String) : Frame :=
  { f with index := cells, indexName := some name }

/-- `df.reset_index(inplace=True)`: the index becomes the first column (named
after the index, `'index'` when unnamed) and the index reverts to `0..n-1`. -/
def resetIndex (f : Frame) : Frame :=
  { indexName := none,
    index := (List.range f.numRows).map (fun i => .num i),
    cols := mkCol (f.indexName.getD "index") f.index :: f.cols }

/-- Label-aligned lookup of a series value (pandas alignment on assignment):
the value at the first source row whose label matches, NaN when none does. -/
def seriesLookup (idx : List PVal) (vals : List PVal) (label : PVal) : PVal :=
  match (List.range idx.length).find? (fun i => idx.getD i .na = label) with
  | some i => vals.getD i .na
  | none => .na

/-- `df[name] = cells`: replace the column in place or append it. -/
def setCol (f : Frame) (name : String) (cells : List PVal) : Frame :=
  if f.cols.any (fun c => c.name = name) then
    { f with cols := f.cols.map (fun c => if c.name = name then mkCol name cells else c) }
  else { f with cols := f.cols ++ [mkCol name cells] }

/-- `df[name] = src[srcName]`: label-aligned column assignment. -/
def assignAligned (f : Frame) (name : String) (src : Frame) (srcName : String) : Frame :=
  setCol f name (f.index.map (seriesLookup src.index (getColCells src srcName)))

/-! ## Imputation (`Modeler._impute`) -/

/-- Python exceptions surfaced by the embedded code: `keyError` for
`mode()[0]` on an empty mode (and failing dict lookups), `recursionError`
for exhaustion of the recursion (fuel) budget. -/
inductive PyError where
  | keyError : PyError
  | recursionError : PyError
  deriving Repr, DecidableEq

/-- `Series.mean()`: the mean of the non-missing numeric values, NaN when
there are none (pandas skips NaNs). -/
def colMean (cells : List PVal) : PVal :=
  let nums := cells.filterMap (fun c => match c with | .num q => some q | _ => none)
  if nums.isEmpty then .na else .num (nums.sum / nums.length)

/-- Strict value order used to model that `Series.mode()` returns its
(most frequent) values sorted, so `mode()[0]` is the smallest of them. -/
def pvalLt : PVal → PVal → Bool
  | .num x, .num y => x < y
  | .str x, .str y => x < y
  | .num _, .str _ => true
  | _, _ => false

/-- `Series.mode()[0]`: the smallest among the most frequent non-missing
values; `none` when every value is missing (pandas returns an empty series and
the `[0]` lookup raises a `KeyError`). -/
def colMode (cells : List PVal) : Option PVal :=
  let vals := cells.filter (fun c => !cellIsNA c)
  (uniqueCells vals).foldl (fun best c =>
    match best with
    | none => some c
    | some b =>
      if vals.count b < vals.count c then some c
      else if vals.count c = vals.count b ∧ pvalLt c b then some c
      else some b) none

/-- Fill the NaNs of a cell list with `fv` (`fillna(fv)`; filling with NaN
is a no-op). -/
def fillCells (cells : List PVal) (fv : PVal) : List PVal :=
  cells.map (fun x => if cellIsNA x then fv else x)

/-- One iteration of the `_impute` loop on a single column: numeric dtypes are
filled with the column mean, other dtypes with `mode()[0]`, which raises a
`KeyError` when the column has no non-missing value. -/
def fillColumn (c : Col) : Except PyError Col :=
  match c.dtype with
  | .numeric => .ok { c with cells := fillCells c.cells (colMean c.cells) }
  | .object =>
    match colMode c.cells with
    | some fv => .ok { c with cells := fillCells c.cells fv }
    | none => .error .keyError

/-- The `for column in data` loop of `_impute`, assigning each filled column
back into the frame.  Returns the column list as left by the loop — when an
exception escapes, the columns already processed keep their filled state and
the remaining ones their original state — plus the exception, if any. -/
def imputeColumnsGo : List Col → List Col × Option PyError
  | [] => ([], none)
  | c :: rest =>
    match fillColumn c with
    | .error e => (c :: rest, some e)
    | .ok c' =>
      let r := imputeColumnsGo rest
      (c' :: r.1, r.2)

/-- `Modeler._impute(data)` with the object mutation made explicit: the first
component is the state of the caller's `data` object after the call (the loop
mutates it in place), the second is what the call returns — the very same
object on success, an exception otherwise. -/
def imputeRun (data : Frame) : Frame × Except PyError Frame :=
  let r := imputeColumnsGo data.cols
  let st : Frame := { data with cols := r.1 }
  (st, match r.2 with | none => .ok st | some e => .error e)

/-- The value returned by `Modeler._impute(data)`. -/
def impute (data : Frame) : Except PyError Frame := (imputeRun data).2

/-! ## The external fitting primitive and `_fit_model` / `_get_model_dict` -/

/-- The fitted model produced by the external distribution-fitting primitive,
reduced to the fields `modeler.py` reads and mutates: the `covariance` matrix,
the `distribs` mapping, and `to_dict`, modelled as a function of the two
mutated fields (the code rewrites them on the live object before calling
`to_dict`). -/
structure ExternalModel where
  covariance : List (List ℚ)
  distribs : List (String × Distrib)
  toDict : List (List ℚ) → List (String × Distrib) → PEntries

/-- `Modeler._fit_model(data)`: impute (mutating `data` in place) and fit.
Returns the post-impute frame together with the fitted model, so callers see
the mutation of their argument. -/
def fit_model (fit : Frame → ExternalModel) (data : Frame) :
    Except PyError (Frame × ExternalModel) :=
  match impute data with
  | .error e => .error e
  | .ok d => .ok (d, fit d)

/-- `Modeler._get_model_dict(data)`: fit, replace the covariance by its ragged
lower triangle, log-transform the defined `std` scales, and flatten the
serialised model. -/
def get_model_dict (fit : Frame → ExternalModel) (logf : ℚ → ℚ) (data : Frame) :
    Except PyError (List (String × PVal)) :=
  match fit_model fit data with
  | .error e => .error e
  | .ok (_, model) =>
    let values := encodeCovariance model.covariance
    let distribs := encodeStds logf model.distribs
    .ok (flatten_dict (model.toDict values distribs) "" [])

/-! ## Extension building (`Modeler._get_extension`) -/

/-- The column prefix applied to every extension key:
`'__' + child_name + '__' + key`. -/
def prefixKey (child_name key : String) : String := "__" ++ child_name ++ "__" ++ key

/-- The loop body of `_get_extension`: one flattened-model row (a Python dict)
per foreign-key value, with `child_rows` set to the group size and every key
prefixed by `prefixKey child_name`. -/
def extensionRows (fit : Frame → ExternalModel) (logf : ℚ → ℚ) (child_name : String)
    (ct : Frame) : List PVal → Except PyError (List (List (String × PVal)))
  | [] => .ok []
  | v :: rest =>
    let child_rows := locRows ct v
    let num_child_rows := child_rows.numRows
    match get_model_dict fit logf child_rows with
    | .error e => .error e
    | .ok row =>
      let row := dictSetP row "child_rows" (.num num_child_rows)
      let row := row.map (fun p => (prefixKey child_name p.1, p.2))
      match extensionRows fit logf child_name ct rest with
      | .error e => .error e
      | .ok rows => .ok (row :: rows)

/-- Deduplicate strings keeping the first occurrence (auxiliary). -/
def dedupStringsAux : List String → List String → List String
  | [], _ => []
  | x :: rest, seen =>
    if x ∈ seen then dedupStringsAux rest seen
    else x :: dedupStringsAux rest (x :: seen)

/-- Deduplicate strings keeping the first occurrence. -/
def dedupStrings (l : List String) : List String := dedupStringsAux l []

/-- `pd.DataFrame(extension_rows, index=foreign_key_values)`: the columns are
the union of the row keys in order of first appearance; a row without a key
gets NaN there; dtypes are inferred. -/
def assembleFrame (rows : List (List (String × PVal))) (idx : List PVal) : Frame :=
  let names := dedupStrings (rows.flatMap (fun r => r.map Prod.fst))
  { indexName := none,
    index := idx,
    cols := names.map (fun nm => mkCol nm (rows.map (fun r => (pLookup r nm).getD .na))) }

/-- `Modeler._get_extension(child_name, child_table, foreign_key)`: group the
child table by its foreign-key column and emit one flattened-model row per
foreign-key value, indexed by those values. -/
def get_extension (fit : Frame → ExternalModel) (logf : ℚ → ℚ) (child_name : String)
    (child_table : Frame) (foreign_key : String) : Except PyError Frame :=
  let foreign_key_values := uniqueCells (getColCells child_table foreign_key)
  let ct := setIndex child_table foreign_key
  match extensionRows fit logf child_name ct foreign_key_values with
  | .error e => .error e
  | .ok rows => .ok (assembleFrame rows foreign_key_values)

/-! ## The metadata collaborator and the CPA orchestrator (`Modeler.cpa`) -/

/-- The metadata service, an external collaborator consumed as plain
functions. -/
structure Metadata where
  load_table : String → Frame
  transform : String → Frame → Frame
  get_primary_key : String → Option String
  get_foreign_key : String → String → String
  get_children : String → List String
  get_parents : String → List String
  get_tables : List String

/-- The process-wide `self.models` registry. -/
abbrev Models := List (String × ExternalModel)

/-- `self.models[table_name] = model`: overwrite in place or append. -/
def updateModel (ms : Models) (name : String) (m : ExternalModel) : Models :=
  if ms.any (fun p => p.1 = name) then ms.map (fun p => if p.1 = name then (name, m) else p)
  else ms ++ [(name, m)]

/-- A pre-loaded `tables` mapping (`None` is modelled by `Option.none`). -/
abbrev Tables := List (String × Frame)

/-- Python truthiness of the `tables` argument: `None` and `{}` are falsy. -/
def tablesTruthy : Option Tables → Bool
  | none => false
  | some ts => !ts.isEmpty

/-- Python truthiness of an optional string (`None` and `''` are falsy). -/
def strTruthy : Option String → Bool
  | none => false
  | some s => !s.isEmpty

/-- `tables[table_name]`: dict lookup, `KeyError` when absent. -/
def lookupTable : Tables → String → Except PyError Frame
  | [], _ => .error .keyError
  | (n, t) :: rest, name => if n = name then .ok t else lookupTable rest name

/-- Step 1 of `cpa`: `tables[table_name] if tables else metadata.load_table(table_name)`. -/
def resolveTable (md : Metadata) (tables : Option Tables) (name : String) :
    Except PyError Frame :=
  if tablesTruthy tables then lookupTable (tables.getD []) name
  else .ok (md.load_table name)

/-- The `for child_name in get_children(table_name)` loop of `cpa`: recurse
into the child (via `rec`, the one-level-deeper `cpa`), build its extension,
left-merge it onto `extended` and zero-fill the merged `child_rows` count. -/
def cpaChildrenGo (md : Metadata) (fit : Frame → ExternalModel) (logf : ℚ → ℚ)
    (rec : String → Option Tables → Option String → Models →
      Except PyError (Frame × Models)) :
    List String → String → Option Tables → Frame → Models →
      Except PyError (Frame × Models)
  | [], _, _, extended, models => .ok (extended, models)
  | child_name :: rest, table_name, tables, extended, models =>
    let child_key := md.get_foreign_key table_name child_name
    match rec child_name tables (some child_key) models with
    | .error e => .error e
    | .ok (child_table, models) =>
      match get_extension fit logf child_name child_table child_key with
      | .error e => .error e
      | .ok extension =>
        let extended := mergeLeft extended extension
        let extended := fillnaCol extended ("__" ++ child_name ++ "__child_rows") (.num 0)
        cpaChildrenGo md fit logf rec rest table_name tables extended models

/-- The body of `Modeler.cpa` for one table, with `rec` standing for the
recursive calls on child tables. -/
def cpaStep (md : Metadata) (fit : Frame → ExternalModel) (logf : ℚ → ℚ)
    (rec : String → Option Tables → Option String → Models →
      Except PyError (Frame × Models))
    (table_name : String) (tables : Option Tables) (foreign_key : Option String)
    (models : Models) : Except PyError (Frame × Models) :=
  match resolveTable md tables table_name with
  | .error e => .error e
  | .ok table =>
    let extended := md.transform table_name table
    let primary_key := md.get_primary_key table_name
    let afterChildren :=
      if strTruthy primary_key then
        let pk := primary_key.getD ""
        let extended := setIndexFromSeries extended (getColCells table pk) pk
        cpaChildrenGo md fit logf rec (md.get_children table_name) table_name tables
          extended models
      else .ok (extended, models)
    match afterChildren with
    | .error e => .error e
    | .ok (extended, models) =>
      match fit_model fit extended with
      | .error e => .error e
      | .ok (extended, model) =>
        let models := updateModel models table_name model
        let extended := if strTruthy primary_key then resetIndex extended else extended
        let extended :=
          if strTruthy foreign_key then
            assignAligned extended (foreign_key.getD "") table (foreign_key.getD "")
          else extended
        .ok (extended, models)

/-- `Modeler.cpa(table_name, tables, foreign_key)`.  The `fuel` argument bounds
the recursion depth (Python's call stack); exhausting it models Python's
`RecursionError` on a cyclic or too-deep schema. -/
def cpa (md : Metadata) (fit : Frame → ExternalModel) (logf : ℚ → ℚ) (fuel : Nat) :
    String → Option Tables → Option String → Models →
      Except PyError (Frame × Models) :=
  Nat.rec (fun _ _ _ _ => .error .recursionError)
    (fun _ rec => cpaStep md fit logf rec) fuel

/-- The root loop of `model_database`: run `cpa` on every table with no
parents, threading the model registry. -/
def modelDatabaseGo (md : Metadata) (fit : Frame → ExternalModel) (logf : ℚ → ℚ)
    (fuel : Nat) : List String → Option Tables → Models → Except PyError Models
  | [], _, models => .ok models
  | t :: rest, tables, models =>
    if (md.get_parents t).isEmpty then
      match cpa md fit logf fuel t tables none models with
      | .error e => .error e
      | .ok (_, models) => modelDatabaseGo md fit logf fuel rest tables models
    else modelDatabaseGo md fit logf fuel rest tables models

/-- `Modeler.model_database(tables)`: the resulting `self.models` registry. -/
def model_database (md : Metadata) (fit : Frame → ExternalModel) (logf : ℚ → ℚ)
    (fuel : Nat) (tables : Option Tables) : Except PyError Models :=
  modelDatabaseGo md fit logf fuel md.get_tables tables []

/-! ## Concrete instances

The end-to-end scenario of spec §8: a parent table `users` (primary key `id`,
3 rows) with one child `orders` (foreign key `user_id`, rows distributed
2/0/1 across the three users), together with a concrete choice for the
external collaborators: `fitC` is a fitting primitive whose models expose a
1×1 covariance and one `amount` descriptor with `std = 4`, and `logC` is a
concrete stand-in for the external `np.log`. -/

/-- The raw `users` table: primary key `id` with values 1, 2, 3. -/
def usersRaw : Frame :=
  ⟨none, [.num 0, .num 1, .num 2],
   [⟨"id", .numeric, [.num 1, .num 2, .num 3]⟩,
    ⟨"age", .numeric, [.num 30, .num 40, .num 50]⟩]⟩

/-- The metadata-transformed `users` table (the `age` feature column). -/
def usersT : Frame :=
  ⟨none, [.num 0, .num 1, .num 2], [⟨"age", .numeric, [.num 30, .num 40, .num 50]⟩]⟩

/-- The raw `orders` table: `user_id` values 1, 1, 3 (so 2/0/1 rows per user). -/
def ordersRaw : Frame :=
  ⟨none, [.num 0, .num 1, .num 2],
   [⟨"user_id", .numeric, [.num 1, .num 1, .num 3]⟩,
    ⟨"amount", .numeric, [.num 10, .num 20, .num 30]⟩]⟩

/-- The metadata-transformed `orders` table (the `amount` feature column). -/
def ordersT : Frame :=
  ⟨none, [.num 0, .num 1, .num 2], [⟨"amount", .numeric, [.num 10, .num 20, .num 30]⟩]⟩

/-- A concrete metadata collaborator for the `users`/`orders` schema. -/
def mdC : Metadata :=
  { load_table := fun n => if n = "users" then usersRaw else ordersRaw,
    transform := fun n _ => if n = "users" then usersT else ordersT,
    get_primary_key := fun n => if n = "users" then some "id" else none,
    get_foreign_key := fun _ _ => "user_id",
    get_children := fun n => if n = "users" then ["orders"] else [],
    get_parents := fun n => if n = "users" then [] else ["users"],
    get_tables := ["users", "orders"] }

/-- A concrete fitting primitive: every model has covariance `[[1]]` and one
`amount` descriptor with `std = 4`; `to_dict` serialises the (mutated)
covariance as a numpy array of arrays and the descriptors as nested dicts. -/
def fitC : Frame → ExternalModel := fun _ =>
  { covariance := [[1]],
    distribs := [("amount", ⟨some 4, .na⟩)],
    toDict := fun cov ds => PEntries.ofList
      [("covariance", .ndarr (PList.ofList (cov.map (fun r =>
          .ndarr (PList.ofList (r.map PVal.num)))))),
       ("distribs", .dict (PEntries.ofList (ds.map (fun p => (p.1, .dict (PEntries.ofList
          [("std", match p.2.std with | some v => .num v | none => .na)]))))))] }

/-- A concrete stand-in for the external `np.log` collaborator. -/
def logC : ℚ → ℚ := fun q => q + 100

/-- The scenario run: `cpa('users', None)` with fuel 5. -/
def c1run : Except PyError (Frame × Models) := cpa mdC fitC logC 5 "users" none none []

/-- The frame returned by the scenario run. -/
def c1frame : Frame := match c1run with | .ok p => p.1 | .error _ => default

/-- The model registry produced by the scenario run. -/
def c1models : Models := match c1run with | .ok p => p.2 | .error _ => []

/-- A nested parameter structure used to witness flattening determinism. -/
def c9entries : PEntries :=
  .cons "covariance" (.arr (.cons (.num 1) (.cons (.num 2) .nil)))
    (.cons "sigma" (.num 3) .nil)

/-- A descriptor list with one defined and one undefined scale, used to witness
the scale log-transform. -/
def c6ds : List (String × Distrib) := [("a", ⟨some 4, .na⟩), ("b", ⟨none, .str "keep"⟩)]

/-- A `cpa` run on the child table `orders` alone (it has no primary key);
`user_id` is supplied as the incoming foreign key. -/
def c8run : Except PyError (Frame × Models) :=
  cpa mdC fitC logC 1 "orders" none (some "user_id") []

/-- The frame returned by the `orders` run. -/
def c8F : Frame := match c8run with | .ok p => p.1 | .error _ => default

/-- The registry produced by the `orders` run. -/
def c8M : Models := match c8run with | .ok p => p.2 | .error _ => []

/-- The child table handed to `_get_extension` in the scenario: the
transformed `orders` data with its `user_id` foreign-key column. -/
def c7child : Frame :=
  ⟨none, [.num 0, .num 1, .num 2],
   [⟨"amount", .numeric, [.num 10, .num 20, .num 30]⟩,
    ⟨"user_id", .numeric, [.num 1, .num 1, .num 3]⟩]⟩

/-- The extension frame built from `c7child` grouped by `user_id`. -/
def c7ext : Frame :=
  match get_extension fitC logC "orders" c7child "user_id" with
  | .ok f => f
  | .error _ => default

/-- A concrete symmetric 2×2 covariance matrix. -/
def mC3 : List (List ℚ) := [[1, 2], [2, 5]]

/-- A table with one numeric column containing a missing value (mean 2). -/
def f4 : Frame :=
  ⟨none, [.num 0, .num 1, .num 2], [⟨"a", .numeric, [.num 1, .na, .num 3]⟩]⟩

/-- A table whose single (numeric / float64) column is entirely missing. -/
def f5 : Frame := ⟨none, [.num 0, .num 1], [⟨"a", .numeric, [.na, .na]⟩]⟩

/-- A table whose single object-dtype column is entirely missing. -/
def f5obj : Frame := ⟨none, [.num 0], [⟨"b", .object, [.na]⟩]⟩

/-! ## Theorems -/

/-! ### Helper lemmas about imputation -/

theorem fillCells_na (cells : List PVal) : fillCells cells .na = cells := by
  induction cells with
  | nil => rfl
  | cons x rest ih =>
    cases x <;> simp [fillCells, cellIsNA] at ih ⊢ <;> exact ih

theorem allna_cons (x : PVal) (rest : List PVal)
    (h : (x :: rest).all cellIsNA = true) : x = .na ∧ rest.all cellIsNA = true := by
  rw [List.all_cons, Bool.and_eq_true] at h
  obtain ⟨hx, hrest⟩ := h
  cases x with
  | na => exact ⟨rfl, hrest⟩
  | num q => exact Bool.noConfusion hx
  | str s => exact Bool.noConfusion hx
  | dict d => exact Bool.noConfusion hx
  | arr l => exact Bool.noConfusion hx
  | ndarr l => exact Bool.noConfusion hx

theorem colMean_allna (cells : List PVal) (h : cells.all cellIsNA = true) :
    colMean cells = .na := by
  have hf : cells.filterMap (fun c => match c with | .num q => some q | _ => none) = [] := by
    induction cells with
    | nil => rfl
    | cons x rest ih =>
      obtain ⟨rfl, hrest⟩ := allna_cons x rest h
      exact ih hrest
  simp [colMean, hf]

theorem colMode_allna (cells : List PVal) (h : cells.all cellIsNA = true) :
    colMode cells = none := by
  have hf : cells.filter (fun c => !cellIsNA c) = [] := by
    induction cells with
    | nil => rfl
    | cons x rest ih =>
      obtain ⟨rfl, hrest⟩ := allna_cons x rest h
      exact ih hrest
  simp [colMode, hf, uniqueCells, uniqueCellsAux]

theorem colMean_of_mem_num (cells : List PVal) (q : ℚ) (h : PVal.num q ∈ cells) :
    ∃ m, colMean cells = .num m := by
  have hq : q ∈ cells.filterMap (fun c => match c with | .num q => some q | _ => none) :=
    List.mem_filterMap.mpr ⟨.num q, h, rfl⟩
  have hne : ¬ (cells.filterMap
      (fun c => match c with | .num q => some q | _ => none)).isEmpty = true := by
    cases hl : cells.filterMap (fun c => match c with | .num q => some q | _ => none) with
    | nil => rw [hl] at hq; cases hq
    | cons a as => simp [hl]
  refine ⟨(cells.filterMap (fun c => match c with | .num q => some q | _ => none)).sum /
    ((cells.filterMap (fun c => match c with | .num q => some q | _ => none)).length : ℚ), ?_⟩
  simp only [colMean]
  rw [if_neg hne]

theorem fillColumn_numeric_allna (c : Col) (hd : c.dtype = .numeric)
    (h : c.cells.all cellIsNA = true) : fillColumn c = .ok c := by
  obtain ⟨nm, dt, cl⟩ := c
  simp only at hd h
  subst hd
  simp [fillColumn, colMean_allna cl h, fillCells_na]

theorem fillColumn_object_allna (c : Col) (hd : c.dtype = .object)
    (h : c.cells.all cellIsNA = true) : fillColumn c = .error .keyError := by
  simp [fillColumn, hd, colMode_allna c.cells h]

theorem fillColumn_error_eq (c : Col) (e : PyError) (h : fillColumn c = .error e) :
    e = .keyError := by
  unfold fillColumn at h
  cases hd : c.dtype <;> rw [hd] at h
  · cases h
  · cases hm : colMode c.cells <;> rw [hm] at h
    · cases h; rfl
    · cases h

theorem fillColumn_numeric_eq (c : Col) (hd : c.dtype = .numeric) :
    fillColumn c = .ok { c with cells := fillCells c.cells (colMean c.cells) } := by
  simp [fillColumn, hd]

theorem imputeGo_ok_get (cs cs' : List Col) (h : imputeColumnsGo cs = (cs', none)) :
    ∀ (i : Nat) (c : Col), cs[i]? = some c →
      ∃ c', fillColumn c = .ok c' ∧ cs'[i]? = some c' := by
  induction cs generalizing cs' with
  | nil =>
    intro i c hc
    simp at hc
  | cons c0 rest ih =>
    intro i c hc
    rw [imputeColumnsGo] at h
    cases hf : fillColumn c0 with
    | error e =>
      rw [hf] at h
      injection h with h1 h2
      exact Option.noConfusion h2
    | ok c0' =>
      rw [hf] at h
      injection h with h1 h2
      subst h1
      cases i with
      | zero =>
        simp only [List.getElem?_cons_zero] at hc
        injection hc with hc'
        subst hc'
        exact ⟨c0', hf, by simp⟩
      | succ j =>
        simp only [List.getElem?_cons_succ] at hc ⊢
        exact ih (imputeColumnsGo rest).1 (by rw [← h2]) j c hc

theorem imputeGo_error (cs : List Col) (hex : ∃ c ∈ cs, fillColumn c = .error .keyError) :
    (imputeColumnsGo cs).2 = some .keyError := by
  induction cs with
  | nil => obtain ⟨c, hc, _⟩ := hex; cases hc
  | cons c0 rest ih =>
    rw [imputeColumnsGo]
    cases hf : fillColumn c0 with
    | error e =>
      show some e = some PyError.keyError
      exact congrArg some (fillColumn_error_eq c0 e hf)
    | ok c0' =>
      obtain ⟨c, hc, herr⟩ := hex
      rcases List.mem_cons.mp hc with rfl | hmem
      · rw [hf] at herr; cases herr
      · show (imputeColumnsGo rest).2 = some PyError.keyError
        exact ih ⟨c, hmem, herr⟩

theorem fillColumn_ok_name (c c' : Col) (h : fillColumn c = .ok c') :
    c'.name = c.name := by
  unfold fillColumn at h
  cases hd : c.dtype <;> rw [hd] at h
  · injection h with h'
    rw [← h']
  · cases hm : colMode c.cells <;> rw [hm] at h
    · cases h
    · injection h with h'
      rw [← h']

theorem imputeGo_names (cs : List Col) :
    ((imputeColumnsGo cs).1).map Col.name = cs.map Col.name := by
  induction cs with
  | nil => rfl
  | cons c0 rest ih =>
    rw [imputeColumnsGo]
    cases hf : fillColumn c0 with
    | error e => rfl
    | ok c0' =>
      show (c0' :: (imputeColumnsGo rest).1).map Col.name = (c0 :: rest).map Col.name
      rw [List.map_cons, List.map_cons, ih, fillColumn_ok_name c0 c0' hf]

theorem imputeRun_ok (data st out : Frame) (h : imputeRun data = (st, .ok out)) :
    out = st ∧ imputeColumnsGo data.cols = (st.cols, none)
    ∧ st.index = data.index ∧ st.indexName = data.indexName := by
  simp only [imputeRun] at h
  cases hr : imputeColumnsGo data.cols with
  | mk cols' err =>
    rw [hr] at h
    cases err with
    | none =>
      injection h with h1 h2
      injection h2 with h3
      subst h1
      exact ⟨h3.symm, rfl, rfl, rfl⟩
    | some e =>
      injection h with h1 h2
      exact Except.noConfusion h2

/-- Claim C2, counterexample: the entry `'fitted': np.array([1, 2])` is
*skipped* by `_flatten_dict` (the skip guard tests `isinstance(value, (dict,
list))`, which a numpy array fails), whereas recursing into it — what the
claim demands for every nested value "including a numpy array" — would
produce the non-empty flattening `{'fitted__0': 1, 'fitted__1': 2}`. -/
theorem flatten_ignored_ndarray_skipped_counterexample :
    flatten_dict (.cons "fitted" (.ndarr (.cons (.num 1) (.cons (.num 2) .nil))) .nil) "" []
      = ([] : List (String × PVal))
    ∧ flatten_array (.cons (.num 1) (.cons (.num 2) .nil)) "fitted" 0 []
      = [("fitted__0", PVal.num 1), ("fitted__1", PVal.num 2)]
    ∧ ([] : List (String × PVal)) ≠ [("fitted__0", PVal.num 1), ("fitted__1", PVal.num 2)] :=
  ⟨rfl, rfl, by decide⟩

/-- Claim C2, amended: at any nesting level, an entry whose key is one of
`fitted`, `distribution`, `type` is skipped exactly when its value is neither
a dict nor a Python list — so scalar *and numpy-array* values are dropped —
while dict values recurse into `_flatten_dict` and list values into
`_flatten_array`, like any other key. -/
theorem flatten_ignored_skip_characterization (key : String) (value : PVal)
    (rest : PEntries) (pre : String) (acc : List (String × PVal))
    (hkey : key ∈ IGNORED_DICT_KEYS) :
    (isDictOrList value = false →
      flatten_dict (.cons key value rest) pre acc = flatten_dict rest pre acc)
    ∧ (∀ es, value = .dict es →
      flatten_dict (.cons key value rest) pre acc
        = flatten_dict rest pre (dictUpdateP acc (flatten_dict es (joinKey pre key) [])))
    ∧ (∀ xs, value = .arr xs →
      flatten_dict (.cons key value rest) pre acc
        = flatten_dict rest pre (dictUpdateP acc (flatten_array xs (joinKey pre key) 0 []))) := by
  refine ⟨fun hv => ?_, fun es hv => ?_, fun xs hv => ?_⟩
  · cases value with
    | dict es => simp [isDictOrList] at hv
    | arr xs => simp [isDictOrList] at hv
    | na =>
      rw [flatten_dict, if_pos ⟨hkey, hv⟩]
      all_goals exact fun _ h => PVal.noConfusion h
    | num q =>
      rw [flatten_dict, if_pos ⟨hkey, hv⟩]
      all_goals exact fun _ h => PVal.noConfusion h
    | str s =>
      rw [flatten_dict, if_pos ⟨hkey, hv⟩]
      all_goals exact fun _ h => PVal.noConfusion h
    | ndarr xs => rw [flatten_dict, if_pos ⟨hkey, hv⟩]
  · subst hv
    rw [flatten_dict, if_neg (by simp [isDictOrList])]
  · subst hv
    rw [flatten_dict, if_neg (by simp [isDictOrList])]

/-- Claim C2, witness for the amended characterization at key `type`:
a numpy-array value is skipped, a dict value is recursed into. -/
theorem flatten_ignored_skip_characterization_witness :
    ("type" ∈ IGNORED_DICT_KEYS)
    ∧ flatten_dict (.cons "type" (.ndarr (.cons (.num 7) .nil)) .nil) "" [] = []
    ∧ flatten_dict (.cons "type" (.dict (.cons "k" (.num 7) .nil)) .nil) "" []
      = [("type__k", PVal.num 7)] := by
  refine ⟨by decide, ?_, ?_⟩
  · rw [(flatten_ignored_skip_characterization "type" (.ndarr (.cons (.num 7) .nil))
      .nil "" [] (by decide)).1 rfl]
    rfl
  · rw [(flatten_ignored_skip_characterization "type" (.dict (.cons "k" (.num 7) .nil))
      .nil "" [] (by decide)).2.1 (.cons "k" (.num 7) .nil) rfl]
    rfl

/-- Claim C9: flattening is deterministic — flattening two structurally
identical nested parameter structures yields identical flat mappings: the
same bindings, hence the same key list in the same order and the same
values.  (`_flatten_dict` is a pure function of its input; Python dicts
iterate in insertion order, modelled by the ordered `PEntries`.) -/
theorem flatten_dict_deterministic (a b : PEntries) (pre : String) (h : a = b) :
    flatten_dict a pre [] = flatten_dict b pre []
    ∧ (flatten_dict a pre []).map Prod.fst = (flatten_dict b pre []).map Prod.fst := by
  subst h
  exact ⟨rfl, rfl⟩

/-- Claim C9, witness at a concrete nested structure. -/
theorem flatten_dict_deterministic_witness :
    c9entries = c9entries
    ∧ (flatten_dict c9entries "" [] = flatten_dict c9entries "" []
      ∧ (flatten_dict c9entries "" []).map Prod.fst
        = (flatten_dict c9entries "" []).map Prod.fst) :=
  ⟨rfl, flatten_dict_deterministic c9entries c9entries "" rfl⟩

/-- Claim C6: in the scale rewriting step of `_get_model_dict`, a descriptor's
`std` is replaced by its logarithm precisely when it is present (non-`None`),
and a descriptor whose `std` is `None` is left completely untouched (all its
fields unchanged). -/
theorem scale_log_transform_iff (logf : ℚ → ℚ) (ds : List (String × Distrib))
    (i : Nat) (n : String) (d : Distrib) (h : ds[i]? = some (n, d)) :
    (∀ v, d.std = some v →
      (encodeStds logf ds)[i]? = some (n, { d with std := some (logf v) }))
    ∧ (d.std = none → (encodeStds logf ds)[i]? = some (n, d)) := by
  obtain ⟨std, rest⟩ := d
  constructor
  · intro v hv
    simp only at hv
    subst hv
    simp [encodeStds, List.getElem?_map, h]
  · intro hv
    simp only at hv
    subst hv
    simp [encodeStds, List.getElem?_map, h]

/-- Claim C6, witness: in `c6ds` the defined scale at position 0 is replaced
by its logarithm and the undefined scale at position 1 is untouched. -/
theorem scale_log_transform_iff_witness :
    (c6ds[0]? = some ("a", ⟨some 4, PVal.na⟩))
    ∧ (encodeStds logC c6ds)[0]? = some ("a", ⟨some (logC 4), PVal.na⟩)
    ∧ (encodeStds logC c6ds)[1]? = some ("b", ⟨none, PVal.str "keep"⟩) :=
  ⟨rfl,
   (scale_log_transform_iff logC c6ds 0 "a" ⟨some 4, .na⟩ rfl).1 4 rfl,
   (scale_log_transform_iff logC c6ds 1 "b" ⟨none, .str "keep"⟩ rfl).2 rfl⟩

/-- Claim C4, counterexample: `_impute` *does* mutate the table object passed
to it.  On `f4` (column `a` = `[1, NaN, 3]`) the post-call state of the
argument differs from the original — the missing cell now holds the column
mean 2 — and the returned frame is that same mutated object, so the caller's
table no longer contains its original missing value. -/
theorem impute_no_mutation_counterexample :
    (imputeRun f4).1 ≠ f4
    ∧ imputeRun f4 = ((imputeRun f4).1, .ok (imputeRun f4).1)
    ∧ frameIsNA f4 "a" 1 = true
    ∧ frameGetCell (imputeRun f4).1 "a" 1 = PVal.num 2 := by
  refine ⟨by with_unfolding_all decide, rfl, rfl, by with_unfolding_all decide⟩

/-- Claim C4, amended: `_impute` fills missing values by assigning each
filled column back into the frame object that was passed in, so it mutates
the caller's table; on success the returned frame is that same (mutated)
object, and whenever some numeric column has both a missing cell and a
number, the post-call state of the argument differs from the original. -/
theorem impute_mutates_in_place (data st out : Frame)
    (h : imputeRun data = (st, .ok out)) :
    out = st
    ∧ (∀ (i : Nat) (c : Col), data.cols[i]? = some c → c.dtype = Dtype.numeric →
      PVal.na ∈ c.cells → (∃ q, PVal.num q ∈ c.cells) → st ≠ data) := by
  obtain ⟨hout, hgo, hidx, hnm⟩ := imputeRun_ok data st out h
  refine ⟨hout, fun i c hc hd hna hnum heq => ?_⟩
  obtain ⟨c', hfill, hc'⟩ := imputeGo_ok_get data.cols st.cols hgo i c hc
  obtain ⟨q, hq⟩ := hnum
  obtain ⟨m, hm⟩ := colMean_of_mem_num c.cells q hq
  rw [fillColumn_numeric_eq c hd, hm] at hfill
  injection hfill with hfill'
  obtain ⟨j, hj⟩ := List.getElem?_of_mem hna
  have hcells : c.cells[j]? = some (PVal.num m) := by
    have h1 : st.cols[i]? = data.cols[i]? := by rw [congrArg Frame.cols heq]
    rw [hc', hc] at h1
    injection h1 with h2
    have h3 : c.cells = fillCells c.cells (PVal.num m) := by
      conv_lhs => rw [← h2, ← hfill']
    rw [h3, fillCells, List.getElem?_map, hj]
    rfl
  rw [hj] at hcells
  injection hcells with hcells'
  exact PVal.noConfusion hcells'

/-- Claim C4, witness: the amended mutation statement applied to `f4`. -/
theorem impute_mutates_in_place_witness :
    ((imputeRun f4).1 = (imputeRun f4).1) ∧ ((imputeRun f4).1 ≠ f4) := by
  have H := impute_mutates_in_place f4 (imputeRun f4).1 (imputeRun f4).1 rfl
  exact ⟨rfl, H.2 0 ⟨"a", .numeric, [.num 1, .na, .num 3]⟩ rfl rfl (by decide) ⟨1, by decide⟩⟩

/-- Claim C5, counterexample: a table whose (float64) column is entirely
missing does *not* make imputation fail — there is no `ImputationError`
anywhere in the code; the call succeeds (the mean of no values is NaN and
`fillna(NaN)` is a no-op) and the column is returned still entirely
missing. -/
theorem impute_entirely_missing_no_error_counterexample :
    impute f5 = .ok f5 ∧ frameIsNA f5 "a" 0 = true ∧ frameIsNA f5 "a" 1 = true :=
  ⟨rfl, rfl, rfl⟩

/-- Claim C5, amended: imputation never raises an `ImputationError` (no such
exception exists).  An entirely-missing column of numeric dtype is silently
left entirely missing — on success it is returned unchanged — while an
entirely-missing object-dtype column raises a `KeyError` from the `mode()[0]`
lookup on the empty mode series. -/
theorem impute_entirely_missing_behavior :
    (∀ (f st out : Frame), imputeRun f = (st, .ok out) →
      ∀ (i : Nat) (c : Col), f.cols[i]? = some c → c.dtype = Dtype.numeric →
        c.cells.all cellIsNA = true → st.cols[i]? = some c)
    ∧ (∀ f : Frame, (∃ c ∈ f.cols, c.dtype = Dtype.object ∧ c.cells.all cellIsNA = true) →
      impute f = .error PyError.keyError) := by
  constructor
  · intro f st out h i c hc hd hna
    obtain ⟨_, hgo, _, _⟩ := imputeRun_ok f st out h
    obtain ⟨c', hfill, hc'⟩ := imputeGo_ok_get f.cols st.cols hgo i c hc
    rw [fillColumn_numeric_allna c hd hna] at hfill
    injection hfill with hfill'
    rw [hc', hfill']
  · intro f hex
    obtain ⟨c, hc, hd, hna⟩ := hex
    have herr : (imputeColumnsGo f.cols).2 = some .keyError :=
      imputeGo_error f.cols ⟨c, hc, fillColumn_object_allna c hd hna⟩
    simp only [impute, imputeRun]
    rw [herr]

/-- Claim C5, witness: the numeric all-missing column of `f5` survives
imputation unchanged, and the object all-missing column of `f5obj` raises
`KeyError`. -/
theorem impute_entirely_missing_behavior_witness :
    ((imputeRun f5).1.cols[0]? = some ⟨"a", Dtype.numeric, [PVal.na, PVal.na]⟩)
    ∧ impute f5obj = .error PyError.keyError :=
  ⟨impute_entirely_missing_behavior.1 f5 (imputeRun f5).1 (imputeRun f5).1 rfl 0
      ⟨"a", .numeric, [.na, .na]⟩ rfl rfl rfl,
   impute_entirely_missing_behavior.2 f5obj ⟨⟨"b", .object, [.na]⟩, by decide, rfl, rfl⟩⟩

/-! ### Helper lemmas about frame operations and `cpa` -/

theorem setCol_index (f : Frame) (n : String) (cs : List PVal) :
    (setCol f n cs).index = f.index := by
  unfold setCol
  split <;> rfl

theorem setCol_colNames_mem (f : Frame) (n : String) (cs : List PVal) :
    ∀ x ∈ (setCol f n cs).colNames, x ∈ f.colNames ∨ x = n := by
  intro x hx
  unfold setCol at hx
  split at hx
  · simp only [Frame.colNames, List.mem_map] at hx
    obtain ⟨c, hc, hname⟩ := hx
    obtain ⟨a, ha, hac⟩ := hc
    subst hac
    by_cases hcn : a.name = n
    · rw [if_pos hcn] at hname
      exact Or.inr hname.symm
    · rw [if_neg hcn] at hname
      exact Or.inl (List.mem_map.mpr ⟨a, ha, hname⟩)
  · simp only [Frame.colNames, List.map_append, List.mem_append] at hx
    rcases hx with hx | hx
    · exact Or.inl hx
    · simp only [List.map_cons, List.map_nil, List.mem_singleton] at hx
      exact Or.inr (by simpa [mkCol] using hx)

theorem assignAligned_index (f : Frame) (n : String) (src : Frame) (sn : String) :
    (assignAligned f n src sn).index = f.index := setCol_index f n _

/-- `cpaStep` in the no-primary-key case: the child loop is skipped and the
body reduces to resolve, transform, fit (with its in-place imputation),
registry update and foreign-key re-attachment. -/
theorem cpaStep_no_pk (md : Metadata) (fit : Frame → ExternalModel) (logf : ℚ → ℚ)
    (rec : String → Option Tables → Option String → Models →
      Except PyError (Frame × Models))
    (t : String) (tbls : Option Tables) (fk : Option String) (m : Models)
    (hpk : md.get_primary_key t = none) :
    cpaStep md fit logf rec t tbls fk m =
      match resolveTable md tbls t with
      | .error e => .error e
      | .ok table =>
        match fit_model fit (md.transform t table) with
        | .error e => .error e
        | .ok (extended, model) =>
          .ok ((if strTruthy fk then
              assignAligned extended (fk.getD "") table (fk.getD "") else extended),
            updateModel m t model) := by
  simp only [cpaStep, hpk, strTruthy, Bool.false_eq_true, if_false]

/-- Helper for claim C10: the child loop behaves identically under `tables =
{}` and `tables = None`, given that the one-level-deeper `cpa` does. -/
theorem cpaChildren_empty_tables (md : Metadata) (fit : Frame → ExternalModel)
    (logf : ℚ → ℚ) (fuel : Nat)
    (IH : ∀ (t : String) (fk : Option String) (m : Models),
      cpa md fit logf fuel t (some []) fk m = cpa md fit logf fuel t none fk m) :
    ∀ (cs : List String) (tn : String) (ext : Frame) (m : Models),
      cpaChildrenGo md fit logf (cpa md fit logf fuel) cs tn (some []) ext m
        = cpaChildrenGo md fit logf (cpa md fit logf fuel) cs tn none ext m := by
  intro cs
  induction cs with
  | nil => intro tn ext m; rfl
  | cons c rest ih =>
    intro tn ext m
    rw [cpaChildrenGo, cpaChildrenGo]
    rw [IH c (some (md.get_foreign_key tn c)) m]
    cases cpa md fit logf fuel c none (some (md.get_foreign_key tn c)) m with
    | error e => rfl
    | ok p =>
      obtain ⟨ct, ms⟩ := p
      show (match get_extension fit logf c ct (md.get_foreign_key tn c) with
          | .error e => (.error e : Except PyError (Frame × Models))
          | .ok extension =>
            cpaChildrenGo md fit logf (cpa md fit logf fuel) rest tn (some [])
              (fillnaCol (mergeLeft ext extension) ("__" ++ c ++ "__child_rows") (.num 0)) ms)
        = (match get_extension fit logf c ct (md.get_foreign_key tn c) with
          | .error e => (.error e : Except PyError (Frame × Models))
          | .ok extension =>
            cpaChildrenGo md fit logf (cpa md fit logf fuel) rest tn none
              (fillnaCol (mergeLeft ext extension) ("__" ++ c ++ "__child_rows") (.num 0)) ms)
      cases get_extension fit logf c ct (md.get_foreign_key tn c) with
      | error e => rfl
      | ok extension => exact ih tn _ ms

/-- Claim C10: `cpa` treats an *empty* pre-loaded table mapping exactly like
no mapping at all — `if tables:` is falsy for both `{}` and `None` — so every
table is resolved through `metadata.load_table`, and the pre-loaded lookup
path is taken only for a non-empty mapping. -/
theorem cpa_empty_tables_as_none (md : Metadata) (fit : Frame → ExternalModel)
    (logf : ℚ → ℚ) :
    ∀ (fuel : Nat) (t : String) (fk : Option String) (m : Models),
      cpa md fit logf fuel t (some []) fk m = cpa md fit logf fuel t none fk m
      ∧ resolveTable md (some []) t = .ok (md.load_table t)
      ∧ ∀ ts : Tables, tablesTruthy (some ts) = !ts.isEmpty := by
  intro fuel
  induction fuel with
  | zero => intro t fk m; exact ⟨rfl, rfl, fun _ => rfl⟩
  | succ n ih =>
    intro t fk m
    refine ⟨?_, rfl, fun _ => rfl⟩
    show cpaStep md fit logf (cpa md fit logf n) t (some []) fk m
      = cpaStep md fit logf (cpa md fit logf n) t none fk m
    simp only [cpaStep]
    have hres : resolveTable md (some []) t = resolveTable md none t := rfl
    rw [hres]
    cases hT : resolveTable md none t with
    | error e => rfl
    | ok table =>
      by_cases hpk : strTruthy (md.get_primary_key t) = true
      · simp only [hpk, if_true,
          cpaChildren_empty_tables md fit logf n (fun t' fk' m' => (ih t' fk' m').1)]
      · rw [Bool.not_eq_true] at hpk
        simp only [hpk, Bool.false_eq_true, if_false]

/-- Claim C8: for a table with no declared primary key, `cpa` returns the
metadata-transformed frame unchanged in row count and row order (same index,
same number of rows), no extension computation or merge is attempted (every
returned column is a transformed column, except possibly the re-attached
foreign-key column), and no child is visited: the registry gains exactly this
table's model, fitted on the (in-place imputed) transformed frame. -/
theorem cpa_no_primary_key_frame_preserved (md : Metadata) (fit : Frame → ExternalModel)
    (logf : ℚ → ℚ) (fuel : Nat) (t : String) (tbls : Option Tables) (fk : Option String)
    (m : Models) (F : Frame) (M : Models)
    (hpk : md.get_primary_key t = none)
    (h : cpa md fit logf (fuel + 1) t tbls fk m = .ok (F, M)) :
    ∃ T d, resolveTable md tbls t = .ok T
      ∧ impute (md.transform t T) = .ok d
      ∧ F.index = (md.transform t T).index
      ∧ F.numRows = (md.transform t T).numRows
      ∧ (∀ x ∈ F.colNames, x ∈ (md.transform t T).colNames ∨ fk = some x)
      ∧ M = updateModel m t (fit d) := by
  have h' : cpaStep md fit logf (cpa md fit logf fuel) t tbls fk m = .ok (F, M) := h
  rw [cpaStep_no_pk md fit logf _ t tbls fk m hpk] at h'
  split at h'
  · exact Except.noConfusion h'
  · rename_i table hT
    split at h'
    · exact Except.noConfusion h'
    · rename_i extended model hFit
      rw [fit_model] at hFit
      split at hFit
      · exact Except.noConfusion hFit
      · rename_i d hImp
        injection hFit with hp
        have hd1 : d = extended := congrArg Prod.fst hp
        have hd2 : fit d = model := congrArg Prod.snd hp
        subst hd1
        subst hd2
        injection h' with hpair
        have hF : (if strTruthy fk = true then
            assignAligned d (fk.getD "") table (fk.getD "") else d) = F :=
          congrArg Prod.fst hpair
        have hM : updateModel m t (fit d) = M := congrArg Prod.snd hpair
        have hrun : imputeRun (md.transform t table)
            = ((imputeRun (md.transform t table)).1, .ok d) := by
          have h2 : (imputeRun (md.transform t table)).2 = .ok d := hImp
          rw [← h2]
        obtain ⟨hd_st, hgo, hidx, _⟩ :=
          imputeRun_ok (md.transform t table) (imputeRun (md.transform t table)).1 d hrun
        have hdidx : d.index = (md.transform t table).index := by rw [hd_st, hidx]
        have hdnames : d.colNames = (md.transform t table).colNames := by
          have h1 : (imputeColumnsGo (md.transform t table).cols).1
              = (imputeRun (md.transform t table)).1.cols := by rw [hgo]
          show d.cols.map Col.name = (md.transform t table).cols.map Col.name
          rw [hd_st, ← h1, imputeGo_names]
        refine ⟨table, d, hT, hImp, ?_, ?_, ?_, hM.symm⟩
        · by_cases hfk : strTruthy fk = true
          · rw [if_pos hfk] at hF
            rw [← hF, assignAligned_index, hdidx]
          · rw [if_neg hfk] at hF
            rw [← hF, hdidx]
        · show F.index.length = (md.transform t table).index.length
          by_cases hfk : strTruthy fk = true
          · rw [if_pos hfk] at hF
            rw [← hF, assignAligned_index, hdidx]
          · rw [if_neg hfk] at hF
            rw [← hF, hdidx]
        · intro x hx
          by_cases hfk : strTruthy fk = true
          · rw [if_pos hfk] at hF
            rw [← hF] at hx
            rcases setCol_colNames_mem d (fk.getD "") _ x hx with hmem | hxfk
            · exact Or.inl (by rw [← hdnames]; exact hmem)
            · cases fk with
              | none => exact absurd hfk (by simp [strTruthy])
              | some s => exact Or.inr (by rw [hxfk]; rfl)
          · rw [if_neg hfk] at hF
            rw [← hF] at hx
            exact Or.inl (by rw [← hdnames]; exact hx)

/-! ### Helper lemmas about extension building -/

theorem prefixKey_inj (c k1 k2 : String) (h : prefixKey c k1 = prefixKey c k2) :
    k1 = k2 := by
  have hd := congrArg String.data h
  simp only [prefixKey, String.data_append] at hd
  exact String.ext (List.append_cancel_left hd)

theorem pLookup_map_set (m : List (String × PVal)) (k : String) (v : PVal)
    (hex : m.any (fun p => p.1 = k) = true) :
    pLookup (m.map (fun p => if p.1 = k then (k, v) else p)) k = some v := by
  induction m with
  | nil => cases hex
  | cons p rest ih =>
    rw [List.map_cons]
    by_cases hp : p.1 = k
    · rw [if_pos hp]
      simp [pLookup]
    · rw [if_neg hp, pLookup, if_neg hp]
      apply ih
      simp only [List.any_cons, Bool.or_eq_true, decide_eq_true_eq] at hex
      rcases hex with hex | hex
      · exact absurd hex hp
      · exact hex

theorem pLookup_append_new (m : List (String × PVal)) (k : String) (v : PVal)
    (hall : m.any (fun p => p.1 = k) = false) :
    pLookup (m ++ [(k, v)]) k = some v := by
  induction m with
  | nil => simp [pLookup]
  | cons p rest ih =>
    simp only [List.any_cons, Bool.or_eq_false_iff, decide_eq_false_iff_not] at hall
    rw [List.cons_append, pLookup, if_neg hall.1]
    exact ih (by simp [hall.2])

theorem pLookup_dictSetP_self (m : List (String × PVal)) (k : String) (v : PVal) :
    pLookup (dictSetP m k v) k = some v := by
  unfold dictSetP
  by_cases hex : m.any (fun p => p.1 = k) = true
  · rw [if_pos hex]
    exact pLookup_map_set m k v hex
  · rw [if_neg hex]
    exact pLookup_append_new m k v (Bool.not_eq_true _ ▸ hex)

theorem pLookup_map_prefixKey (r : List (String × PVal)) (c k : String) :
    pLookup (r.map (fun p => (prefixKey c p.1, p.2))) (prefixKey c k) = pLookup r k := by
  induction r with
  | nil => rfl
  | cons p rest ih =>
    rw [List.map_cons, pLookup, pLookup]
    by_cases hp : p.1 = k
    · rw [if_pos (by rw [hp]), if_pos hp]
    · rw [if_neg (fun hh => hp (prefixKey_inj c p.1 k hh)), if_neg hp]
      exact ih

theorem pLookup_some_key_mem (r : List (String × PVal)) (k : String) (v : PVal)
    (h : pLookup r k = some v) : k ∈ r.map Prod.fst := by
  induction r with
  | nil => cases h
  | cons p rest ih =>
    rw [pLookup] at h
    by_cases hp : p.1 = k
    · rw [List.map_cons, hp]
      exact List.mem_cons_self _ _
    · rw [if_neg hp] at h
      exact List.mem_cons_of_mem _ (ih h)

theorem mem_dedupStringsAux (l : List String) :
    ∀ (seen : List String) (x : String),
      x ∈ dedupStringsAux l seen ↔ (x ∈ l ∧ x ∉ seen) := by
  induction l with
  | nil => intro seen x; simp [dedupStringsAux]
  | cons y rest ih =>
    intro seen x
    rw [dedupStringsAux]
    by_cases hy : y ∈ seen
    · rw [if_pos hy, ih]
      constructor
      · exact fun ⟨h1, h2⟩ => ⟨List.mem_cons_of_mem _ h1, h2⟩
      · rintro ⟨h1, h2⟩
        rcases List.mem_cons.mp h1 with rfl | h1
        · exact absurd hy h2
        · exact ⟨h1, h2⟩
    · rw [if_neg hy]
      constructor
      · intro hx
        rcases List.mem_cons.mp hx with rfl | hx
        · exact ⟨List.mem_cons_self _ _, hy⟩
        · obtain ⟨h1, h2⟩ := (ih (y :: seen) x).mp hx
          exact ⟨List.mem_cons_of_mem _ h1,
            fun hc => h2 (List.mem_cons_of_mem _ hc)⟩
      · rintro ⟨h1, h2⟩
        rcases List.mem_cons.mp h1 with rfl | h1
        · exact List.mem_cons_self _ _
        · by_cases hxy : x = y
          · subst hxy; exact List.mem_cons_self _ _
          · exact List.mem_cons_of_mem _ ((ih (y :: seen) x).mpr
              ⟨h1, by simp [hxy, h2]⟩)

theorem mem_dedupStrings (l : List String) (x : String) :
    x ∈ dedupStrings l ↔ x ∈ l := by
  rw [dedupStrings, mem_dedupStringsAux]
  simp

theorem find?_map_mkCol (names : List String) (g : String → List PVal) (nm : String)
    (h : nm ∈ names) :
    (names.map (fun n => mkCol n (g n))).find? (fun c => c.name = nm)
      = some (mkCol nm (g nm)) := by
  induction names with
  | nil => cases h
  | cons n0 rest ih =>
    rw [List.map_cons]
    by_cases hn : n0 = nm
    · subst hn
      rw [List.find?_cons_of_pos _ (by simp [mkCol])]
    · rw [List.find?_cons_of_neg _ (by simp [mkCol, hn])]
      rcases List.mem_cons.mp h with rfl | h
      · exact absurd rfl hn
      · exact ih h

theorem assembleFrame_index (rows : List (List (String × PVal))) (idx : List PVal) :
    (assembleFrame rows idx).index = idx := rfl

theorem assembleFrame_colNames (rows : List (List (String × PVal))) (idx : List PVal) :
    (assembleFrame rows idx).colNames
      = dedupStrings (rows.flatMap (fun r => r.map Prod.fst)) := by
  show ((dedupStrings (rows.flatMap (fun r => r.map Prod.fst))).map
      (fun nm => mkCol nm (rows.map (fun r => (pLookup r nm).getD .na)))).map Col.name
    = dedupStrings (rows.flatMap (fun r => r.map Prod.fst))
  rw [List.map_map]
  have : (Col.name ∘ fun nm => mkCol nm (rows.map (fun r => (pLookup r nm).getD .na)))
      = id := funext fun nm => rfl
  rw [this, List.map_id]

theorem getColCells_assembleFrame (rows : List (List (String × PVal))) (idx : List PVal)
    (nm : String) (h : nm ∈ dedupStrings (rows.flatMap (fun r => r.map Prod.fst))) :
    getColCells (assembleFrame rows idx) nm
      = rows.map (fun r => (pLookup r nm).getD .na) := by
  show (match ((dedupStrings (rows.flatMap (fun r => r.map Prod.fst))).map
      (fun nm => mkCol nm (rows.map (fun r => (pLookup r nm).getD .na)))).find?
        (fun c => c.name = nm) with
    | some c => c.cells
    | none => []) = rows.map (fun r => (pLookup r nm).getD .na)
  rw [find?_map_mkCol _ _ nm h]
  rfl

theorem uniqueCells_ne_nil (l : List PVal) (h : l ≠ []) : uniqueCells l ≠ [] := by
  cases l with
  | nil => exact absurd rfl h
  | cons x rest =>
    rw [uniqueCells, uniqueCellsAux, if_neg (by simp)]
    exact List.cons_ne_nil _ _

theorem extensionRows_spec (fit : Frame → ExternalModel) (logf : ℚ → ℚ) (c : String)
    (ct : Frame) :
    ∀ (vs : List PVal) (rows : List (List (String × PVal))),
      extensionRows fit logf c ct vs = .ok rows →
      rows.length = vs.length
      ∧ (∀ (i : Nat) (v : PVal) (r : List (String × PVal)),
          vs[i]? = some v → rows[i]? = some r →
          pLookup r (prefixKey c "child_rows") = some (.num ((locRows ct v).numRows))
          ∧ ∀ p ∈ r, ∃ k0, p.1 = prefixKey c k0) := by
  intro vs
  induction vs with
  | nil =>
    intro rows h
    rw [extensionRows] at h
    injection h with h'
    subst h'
    exact ⟨rfl, fun i v r hv _ => by cases hv⟩
  | cons v rest ih =>
    intro rows h
    rw [extensionRows] at h
    split at h
    · exact Except.noConfusion h
    · rename_i row0 hrow0
      split at h
      · exact Except.noConfusion h
      · rename_i rows' hrows'
        injection h with h'
        subst h'
        obtain ⟨ihlen, ihspec⟩ := ih rows' hrows'
        refine ⟨by simp [ihlen], ?_⟩
        intro i w r hw hr
        cases i with
        | zero =>
          simp only [List.getElem?_cons_zero] at hw hr
          injection hw with hw'
          injection hr with hr'
          subst hw'
          subst hr'
          constructor
          · rw [pLookup_map_prefixKey, pLookup_dictSetP_self]
          · intro p hp
            obtain ⟨p0, _, hp0⟩ := List.mem_map.mp hp
            exact ⟨p0.1, by rw [← hp0]⟩
        | succ j =>
          simp only [List.getElem?_cons_succ] at hw hr
          exact ihspec j w r hw hr

/-- Claim C7: every column name of the extension frame produced by
`_get_extension` is exactly a flattened key prefixed with `__<child_name>__`;
the `child_rows` column (carrying each group's row count) is attached and
prefixed the same way; and concretely, for child `orders` and flattened key
`mu__0` the column name is exactly `__orders__mu__0`. -/
theorem extension_prefixing (fit : Frame → ExternalModel) (logf : ℚ → ℚ)
    (c : String) (ct : Frame) (fk : String) (ext : Frame)
    (h : get_extension fit logf c ct fk = .ok ext) :
    (∀ name ∈ ext.colNames, ∃ k, name = prefixKey c k)
    ∧ (getColCells ct fk ≠ [] → prefixKey c "child_rows" ∈ ext.colNames)
    ∧ (∀ (i : Nat) (v : PVal), ext.index[i]? = some v →
        frameGetCell ext (prefixKey c "child_rows") i
          = .num ((locRows (setIndex ct fk) v).numRows))
    ∧ prefixKey "orders" "mu__0" = "__orders__mu__0" := by
  rw [get_extension] at h
  split at h
  · exact Except.noConfusion h
  · rename_i rows hrows
    injection h with h'
    subst h'
    obtain ⟨hlen, hspec⟩ := extensionRows_spec fit logf c (setIndex ct fk)
      (uniqueCells (getColCells ct fk)) rows hrows
    have hnames : ∀ (i : Nat) (r : List (String × PVal)), rows[i]? = some r →
        ∀ p ∈ r, p.1 ∈ (assembleFrame rows (uniqueCells (getColCells ct fk))).colNames := by
      intro i r hr p hp
      rw [assembleFrame_colNames, mem_dedupStrings]
      exact List.mem_flatMap.mpr ⟨r, List.getElem?_mem hr,
        List.mem_map.mpr ⟨p, hp, rfl⟩⟩
    refine ⟨?_, ?_, ?_, by decide⟩
    · intro name hname
      rw [assembleFrame_colNames, mem_dedupStrings] at hname
      obtain ⟨r, hrmem, hkeys⟩ := List.mem_flatMap.mp hname
      obtain ⟨p, hp, hpn⟩ := List.mem_map.mp hkeys
      obtain ⟨i, hri⟩ := List.getElem?_of_mem hrmem
      obtain ⟨hi, _⟩ := List.getElem?_eq_some.mp hri
      have hiv : i < (uniqueCells (getColCells ct fk)).length := by
        rw [← hlen]; exact hi
      obtain ⟨_, hkeyspec⟩ :=
        hspec i _ r (List.getElem?_eq_getElem hiv) hri
      obtain ⟨k0, hk0⟩ := hkeyspec p hp
      exact ⟨k0, by rw [← hpn, hk0]⟩
    · intro hne
      have hvs : uniqueCells (getColCells ct fk) ≠ [] := uniqueCells_ne_nil _ hne
      have hpos : 0 < (uniqueCells (getColCells ct fk)).length :=
        List.length_pos.mpr hvs
      have hposr : 0 < rows.length := by rw [hlen]; exact hpos
      have hr0 : rows[0]? = some rows[0] := List.getElem?_eq_getElem hposr
      obtain ⟨hlook, _⟩ := hspec 0 _ rows[0] (List.getElem?_eq_getElem hpos) hr0
      obtain ⟨p, hp, hpn⟩ := List.mem_map.mp (pLookup_some_key_mem _ _ _ hlook)
      have hmem := hnames 0 rows[0] hr0 p hp
      rw [hpn] at hmem
      exact hmem
    · intro i v hv
      rw [assembleFrame_index] at hv
      obtain ⟨hiv, _⟩ := List.getElem?_eq_some.mp hv
      have hi : i < rows.length := by rw [hlen]; exact hiv
      have hr : rows[i]? = some rows[i] := List.getElem?_eq_getElem hi
      obtain ⟨hlook, _⟩ := hspec i v rows[i] hv hr
      have hmemname : prefixKey c "child_rows"
          ∈ (assembleFrame rows (uniqueCells (getColCells ct fk))).colNames := by
        obtain ⟨p, hp, hpn⟩ := List.mem_map.mp (pLookup_some_key_mem _ _ _ hlook)
        have hmem := hnames i rows[i] hr p hp
        rw [hpn] at hmem
        exact hmem
      show (getColCells (assembleFrame rows (uniqueCells (getColCells ct fk)))
          (prefixKey c "child_rows")).getD i .na = _
      rw [getColCells_assembleFrame rows _ (prefixKey c "child_rows")
        (by rw [assembleFrame_colNames] at hmemname; exact hmemname)]
      rw [List.getD_eq_getElem?_getD, List.getElem?_map, hr]
      simp [hlook]

/-! ### Helper lemmas about the covariance encoding -/

theorem enum_map_getElem? {α β : Type} (l : List α) (f : Nat × α → β) (i : Nat) :
    (l.enum.map f)[i]? = (l[i]?).map (fun a => f (i, a)) := by
  rw [List.getElem?_map, List.getElem?_enum]
  cases l[i]? <;> rfl

theorem tril_getElem? (m : List (List ℚ)) (i : Nat) :
    (tril m)[i]? = (m[i]?).map (fun row =>
      row.enum.map (fun q => if q.1 ≤ i then q.2 else 0)) :=
  enum_map_getElem? m _ i

theorem encodeCovariance_getElem? (m : List (List ℚ)) (i : Nat) :
    (encodeCovariance m)[i]? = ((tril m)[i]?).map (fun row => row.take (i + 1)) :=
  enum_map_getElem? (tril m) _ i

theorem encodeCovariance_length (m : List (List ℚ)) :
    (encodeCovariance m).length = m.length := by
  simp [encodeCovariance, tril, List.enum_length]

theorem encode_row_entry (row : List ℚ) (i j : Nat) (hj : j ≤ i) (hjlen : j < row.length) :
    ((row.enum.map (fun q => if q.1 ≤ i then q.2 else 0)).take (i + 1)).getD j 0
      = row.getD j 0 := by
  rw [List.getD_eq_getElem?_getD, List.getElem?_take_of_lt (by omega),
    enum_map_getElem?, List.getD_eq_getElem?_getD,
    List.getElem?_eq_getElem hjlen]
  simp [hj]

theorem sum_range_succ_mul_two (N : Nat) :
    2 * (((List.range N).map (fun i => i + 1)).sum) = N * (N + 1) := by
  induction N with
  | zero => rfl
  | succ p ih =>
    rw [List.range_succ, List.map_append, List.sum_append]
    simp only [List.map_cons, List.map_nil, List.sum_cons, List.sum_nil]
    calc 2 * (((List.range p).map (fun i => i + 1)).sum + (p + 1 + 0))
        = 2 * ((List.range p).map (fun i => i + 1)).sum + 2 * (p + 1) := by ring
      _ = p * (p + 1) + 2 * (p + 1) := by rw [ih]
      _ = (p + 1) * (p + 1 + 1) := by ring

/-- Claim C3: the covariance re-representation of `_get_model_dict` keeps, for
an n×n symmetric matrix, exactly the first `i + 1` entries of row `i` of the
lower triangle (which equal the original row's entries at or below the
diagonal), so the retained value count is n(n+1)/2, and the original
symmetric matrix is reconstructible from the retained ragged rows. -/
theorem covariance_encoding_spec (m : List (List ℚ)) (n : Nat) (hn : m.length = n)
    (hsq : ∀ row ∈ m, row.length = n)
    (hsymm : ∀ i, i < n → ∀ j, j < n → entryAt m i j = entryAt m j i) :
    ((encodeCovariance m).length = n
      ∧ (∀ i, i < n → ((encodeCovariance m)[i]?).map List.length = some (i + 1))
      ∧ (∀ i, i < n → ∀ j, j ≤ i → entryAt (encodeCovariance m) i j = entryAt m i j))
    ∧ ((encodeCovariance m).map List.length).sum = n * (n + 1) / 2
    ∧ reconstructCovariance (encodeCovariance m) = m := by
  have hlen : (encodeCovariance m).length = n := by rw [encodeCovariance_length, hn]
  have hrow : ∀ i, i < n → m[i]? = some (m.getD i []) ∧ (m.getD i []).length = n := by
    intro i hi
    have hilen : i < m.length := by omega
    constructor
    · rw [List.getD_eq_getElem?_getD, List.getElem?_eq_getElem hilen]
      rfl
    · rw [List.getD_eq_getElem?_getD, List.getElem?_eq_getElem hilen]
      exact hsq _ (List.getElem_mem hilen)
  have hleni : ∀ i, i < n → ((encodeCovariance m)[i]?).map List.length = some (i + 1) := by
    intro i hi
    obtain ⟨hmi, hrl⟩ := hrow i hi
    rw [encodeCovariance_getElem?, tril_getElem?, hmi]
    simp only [Option.map_some']
    congr 1
    rw [List.length_take, List.length_map, List.enum_length, hrl]
    omega
  have hentry : ∀ i, i < n → ∀ j, j ≤ i →
      entryAt (encodeCovariance m) i j = entryAt m i j := by
    intro i hi j hj
    obtain ⟨hmi, hrl⟩ := hrow i hi
    show ((encodeCovariance m).getD i []).getD j 0 = (m.getD i []).getD j 0
    rw [List.getD_eq_getElem?_getD (encodeCovariance m),
      encodeCovariance_getElem?, tril_getElem?, hmi]
    simp only [Option.map_some', Option.getD_some]
    exact encode_row_entry (m.getD i []) i j hj (by omega)
  refine ⟨⟨hlen, hleni, hentry⟩, ?_, ?_⟩
  · have hmapeq : (encodeCovariance m).map List.length
        = (List.range n).map (fun i => i + 1) := by
      apply List.ext_getElem?
      intro k
      by_cases hk : k < n
      · rw [List.getElem?_map, List.getElem?_map, List.getElem?_range hk]
        exact (hleni k hk).trans rfl
      · rw [List.getElem?_eq_none (by rw [List.length_map, hlen]; omega),
          List.getElem?_eq_none (by rw [List.length_map, List.length_range]; omega)]
    rw [hmapeq]
    have h2 := sum_range_succ_mul_two n
    omega
  · apply List.ext_getElem?
    intro k
    rw [reconstructCovariance, hlen]
    by_cases hk : k < n
    · obtain ⟨hmk, hrkl⟩ := hrow k hk
      rw [List.getElem?_map, List.getElem?_range hk, Option.map_some', hmk]
      congr 1
      apply List.ext_getElem?
      intro j
      by_cases hj : j < n
      · rw [List.getElem?_map, List.getElem?_range hj, Option.map_some']
        have hrj : (m.getD k [])[j]? = some ((m.getD k []).getD j 0) := by
          rw [List.getD_eq_getElem?_getD (m.getD k []),
            List.getElem?_eq_getElem (by omega)]
          rfl
        rw [hrj]
        congr 1
        by_cases hjk : j ≤ k
        · rw [if_pos hjk, hentry k hk j hjk]
          rfl
        · rw [if_neg hjk, hentry j hj k (by omega), hsymm j hj k hk]
          rfl
      · rw [List.getElem?_eq_none (by rw [List.length_map, List.length_range]; omega),
          List.getElem?_eq_none (by omega)]
    · rw [List.getElem?_eq_none (by rw [List.length_map, List.length_range]; omega),
        List.getElem?_eq_none (by omega)]

/-- Claim C3, witness: the encoding of the concrete symmetric matrix `mC3`. -/
theorem covariance_encoding_spec_witness :
    (mC3.length = 2 ∧ (∀ row ∈ mC3, row.length = 2)
      ∧ (∀ i, i < 2 → ∀ j, j < 2 → entryAt mC3 i j = entryAt mC3 j i))
    ∧ (((encodeCovariance mC3).length = 2
      ∧ (∀ i, i < 2 → ((encodeCovariance mC3)[i]?).map List.length = some (i + 1))
      ∧ (∀ i, i < 2 → ∀ j, j ≤ i → entryAt (encodeCovariance mC3) i j = entryAt mC3 i j))
    ∧ ((encodeCovariance mC3).map List.length).sum = 2 * (2 + 1) / 2
    ∧ reconstructCovariance (encodeCovariance mC3) = mC3) :=
  ⟨⟨rfl, by decide, by decide⟩,
   covariance_encoding_spec mC3 2 rfl (by decide) (by decide)⟩

/-- Claim C7, witness: the extension built from `c7child` grouped by
`user_id` for child name `orders`. -/
theorem extension_prefixing_witness :
    (get_extension fitC logC "orders" c7child "user_id" = .ok c7ext)
    ∧ (∀ name ∈ c7ext.colNames, ∃ k, name = prefixKey "orders" k)
    ∧ prefixKey "orders" "child_rows" ∈ c7ext.colNames
    ∧ prefixKey "orders" "mu__0" = "__orders__mu__0" := by
  have H := extension_prefixing fitC logC "orders" c7child "user_id" c7ext rfl
  exact ⟨rfl, H.1, H.2.1 (by decide), H.2.2.2⟩

/-- Claim C1, counterexample: in the users/orders scenario (3 users, orders
distributed 2/0/1) the frame returned by `cpa('users', ...)` has its
`__orders__child_rows` column equal to `[2, 0, 1]` as claimed, but the
zero-order user's *other* `__orders__*` cells are NOT missing in the returned
frame — `_fit_model` imputes the merged NaNs in place (with the column mean)
before `cpa` returns — contradicting the claim that they remain NaN. -/
theorem cpa_users_orders_extension_not_missing_counterexample :
    c1run = .ok (c1frame, c1models)
    ∧ getColCells c1frame "__orders__child_rows" = [.num 2, .num 0, .num 1]
    ∧ frameIsNA c1frame "__orders__covariance__0__0" 1 = false
    ∧ frameIsNA c1frame "__orders__distribs__amount__std" 1 = false :=
  ⟨rfl, by with_unfolding_all decide, by with_unfolding_all decide,
   by with_unfolding_all decide⟩

/-- Claim C1, amended: in the users/orders scenario the frame returned by
`cpa('users', ...)` has 3 rows, a `__orders__child_rows` column equal to
`[2, 0, 1]` that is present and non-missing on every row (0 where no child
matched), while the zero-order user's other `__orders__*` columns — NaN right
after the left-merge — are filled with their column mean by the in-place
imputation performed when the parent model is fitted, so they are
*non-missing* (not NaN, and generally not 0) in the returned frame: the
covariance cell holds 1 (mean of the two groups' value 1) and the std cell
holds `logC 4` (both groups' log-transformed scale). -/
theorem cpa_users_orders_child_rows_then_imputed :
    c1run = .ok (c1frame, c1models)
    ∧ c1frame.numRows = 3
    ∧ getColCells c1frame "__orders__child_rows" = [.num 2, .num 0, .num 1]
    ∧ (∀ i, i < 3 → frameIsNA c1frame "__orders__child_rows" i = false)
    ∧ frameGetCell c1frame "__orders__covariance__0__0" 1 = .num 1
    ∧ frameGetCell c1frame "__orders__distribs__amount__std" 1 = .num (logC 4)
    ∧ c1frame.colNames = ["id", "age", "__orders__covariance__0__0",
        "__orders__distribs__amount__std", "__orders__child_rows"] :=
  ⟨rfl, by decide, by with_unfolding_all decide, by with_unfolding_all decide,
   by with_unfolding_all decide, by with_unfolding_all decide,
   by with_unfolding_all decide⟩

/-- Claim C8, witness: the run of `cpa` on the child table `orders` (no
primary key), with the scenario collaborators. -/
theorem cpa_no_primary_key_frame_preserved_witness :
    (mdC.get_primary_key "orders" = none)
    ∧ ∃ T d, resolveTable mdC none "orders" = .ok T
      ∧ impute (mdC.transform "orders" T) = .ok d
      ∧ c8F.index = (mdC.transform "orders" T).index
      ∧ c8F.numRows = (mdC.transform "orders" T).numRows
      ∧ (∀ x ∈ c8F.colNames, x ∈ (mdC.transform "orders" T).colNames ∨ (some "user_id") = some x)
      ∧ c8M = updateModel [] "orders" (fitC d) :=
  ⟨rfl, cpa_no_primary_key_frame_preserved mdC fitC logC 0 "orders" none (some "user_id")
    [] c8F c8M rfl rfl⟩

end SDV
